import Mathlib

/-!
Verification of the per-thread preference store of `takopi-matrix`
(`src/takopi_matrix/thread_state.py`) and the engine-selection layer of
`src/takopi_matrix/bridge/commands/builtin.py`, as a shallow embedding.

JSON values are modelled by the inductive `JValue`; Python dicts by
insertion-ordered association lists (`JObj`).  Operations that can raise a
Python exception (an `AttributeError` from calling `.strip()` on a non-string)
return `Except Unit _`; operations that cannot raise return plain values.
Every mutating store method returns the new document together with a `Bool`
recording whether `_save_locked` (a persisted write) was invoked.
-/

namespace TakopiMatrix

/-- A JSON value, as produced by `json.load`: the `Any`-typed contents of the
store document. -/
inductive JValue where
  | null : JValue
  | str (s : String) : JValue
  | num (n : Int) : JValue
  | bool (b : Bool) : JValue
  | obj (fields : List (String × JValue)) : JValue
  | arr (elems : List JValue) : JValue

/-- A Python `dict[str, Any]` holding JSON data:
an insertion-ordered association list. -/
abbrev JObj := List (String × JValue)

/-- `m.get(k)`: first binding of `k`, if any. -/
def jget (m : JObj) (k : String) : Option JValue :=
  match m with
  | [] => none
  | (k', v) :: rest => if k' = k then some v else jget rest k

/-- `m[k] = v`: replace the first binding of `k` in place, else append. -/
def jset (m : JObj) (k : String) (v : JValue) : JObj :=
  match m with
  | [] => [(k, v)]
  | (k', v') :: rest =>
      if k' = k then (k, v) :: rest else (k', v') :: jset rest k v

/-- `m.pop(k, None)`: drop the first binding of `k`. -/
def jpop (m : JObj) (k : String) : JObj :=
  match m with
  | [] => []
  | (k', v') :: rest => if k' = k then rest else (k', v') :: jpop rest k

/-- Python `str.strip()` on a list of characters: drop whitespace from both
ends. -/
def stripChars (l : List Char) : List Char :=
  ((l.dropWhile Char.isWhitespace).reverse.dropWhile Char.isWhitespace).reverse

/-- Python `str.strip()`. -/
def pyStrip (s : String) : String := ⟨stripChars s.data⟩

/-- Python `str.lower()` (ASCII case folding). -/
def pyLower (s : String) : String := ⟨s.data.map Char.toLower⟩

/-- `_normalize_text` (thread_state.py lines 29-33): strip, empty becomes
`None`. -/
def _normalize_text (value : Option String) : Option String :=
  match value with
  | none => none
  | some s => let t := pyStrip s; if t = "" then none else some t

/-- `_normalize_engine_id` (thread_state.py lines 36-40): strip, lowercase,
empty becomes `None`. -/
def _normalize_engine_id (value : Option String) : Option String :=
  match value with
  | none => none
  | some s => let t := pyLower (pyStrip s); if t = "" then none else some t

/-- Applying `_normalize_text` to a raw JSON value pulled out of the document
with `.get(...)`: a missing key or JSON `null` is Python `None`; a string is
stripped; any other type raises `AttributeError` (no `.strip` method),
modelled as `.error ()`. -/
def normTextJ : Option JValue → Except Unit (Option String)
  | none => .ok none
  | some .null => .ok none
  | some (.str s) => .ok (_normalize_text (some s))
  | some _ => .error ()

/-- `value if isinstance(value, str) else None`: the defensive read used for
override fields (thread_state.py lines 306-311). -/
def strOrNone : Option JValue → Option String
  | some (.str s) => some s
  | _ => none

/-- Modelled from the spec: the `EngineOverrides` dataclass of the missing
`engine_overrides.py`; spec §3 OverrideEntry
`{model: optional string, reasoning: optional string}`. -/
structure EngineOverrides where
  model : Option String
  reasoning : Option String
deriving DecidableEq, Repr

/-- Modelled from the spec: `normalize_overrides` of the missing
`engine_overrides.py`.  Spec §3: an OverrideEntry field is "set" (non-empty,
trimmed) or "absent"; an entry with both fields absent does not exist — it is
removable (`None`). -/
def normalize_overrides (o : Option EngineOverrides) : Option EngineOverrides :=
  match o with
  | none => none
  | some e =>
    let m := _normalize_text e.model
    let r := _normalize_text e.reasoning
    if m = none ∧ r = none then none else some ⟨m, r⟩

/-- `ResumeToken` from `takopi.api` (spec §3): an engine id plus an opaque
continuation value. -/
structure ResumeToken where
  engine : String
  value : String
deriving DecidableEq, Repr

/-- `RunContext` from `takopi.api` (spec §3): a project key plus an optional
branch. -/
structure RunContext where
  project : String
  branch : Option String
deriving DecidableEq, Repr

/-- The `rooms` field of `_ThreadState` (thread_state.py line 21): room id to
raw JSON room value (a well-formed value is an object mapping thread root ids
to thread-entry objects, but hand-edited files may hold anything). -/
abbrev Doc := JObj

/-- `_new_thread_entry` (thread_state.py lines 43-53). -/
def _new_thread_entry : JObj :=
  [("context_project", .null), ("context_branch", .null),
   ("default_engine", .null), ("trigger_mode", .null),
   ("engine_overrides", .obj []), ("sessions", .obj [])]

/-- `_thread_is_empty` (thread_state.py lines 374-388).  Checks each scalar
field through `_normalize_text` (which can raise on a wrong-typed value),
then the two maps. -/
def _thread_is_empty (t : JObj) : Except Unit Bool := do
  if (← normTextJ (jget t "context_project")).isSome then return false
  if (← normTextJ (jget t "context_branch")).isSome then return false
  if (← normTextJ (jget t "default_engine")).isSome then return false
  if (← normTextJ (jget t "trigger_mode")).isSome then return false
  match jget t "engine_overrides" with
  | some (.obj ov) => if ov.isEmpty then pure () else return false
  | _ => pure ()
  match jget t "sessions" with
  | some (.obj ss) => return ss.isEmpty
  | _ => return true

/-- The thread entry `_ensure_thread_locked` (thread_state.py lines 360-372)
returns: the existing entry when the room holds an object there, else a fresh
`_new_thread_entry`. -/
def ensuredEntry (d : Doc) (room_id thread_key : String) : JObj :=
  match jget d room_id with
  | some (.obj r) =>
      match jget r thread_key with
      | some (.obj t) => t
      | _ => _new_thread_entry
  | _ => _new_thread_entry

/-- Writing the (possibly fresh) thread entry back into the document: the
net effect of `_ensure_thread_locked` plus in-place mutation of the entry. -/
def docSetThread (d : Doc) (room_id thread_key : String) (t : JValue) : Doc :=
  let room : JObj :=
    match jget d room_id with
    | some (.obj r) => r
    | _ => []
  jset d room_id (.obj (jset room thread_key t))

/-- The shared tail of every clear-path mutation (e.g. thread_state.py lines
128-133 and 173-179): write the mutated entry back, pop it when
`_thread_is_empty` holds, and pop the room when its map became empty. -/
def pruneWrite (d : Doc) (room_id thread_key : String) (r t1 : JObj)
    (emptyNow : Bool) : Doc :=
  let r1 := jset r thread_key (.obj t1)
  let r2 := if emptyNow then jpop r1 thread_key else r1
  if r2.isEmpty then jpop d room_id else jset d room_id (.obj r2)

/-- `get_session_resume` (thread_state.py lines 75-96).  Total: every read is
guarded by an `isinstance` check. -/
def get_session_resume (d : Doc) (room_id thread_root_event_id engine : String) :
    Option ResumeToken :=
  match _normalize_text (some thread_root_event_id),
        _normalize_engine_id (some engine) with
  | some thread_key, some engine_key =>
      match jget d room_id with
      | some (.obj room) =>
          match jget room thread_key with
          | some (.obj thread_state) =>
              match jget thread_state "sessions" with
              | some (.obj sessions) =>
                  match jget sessions engine_key with
                  | some (.str resume) =>
                      if resume = "" then none
                      else some ⟨engine_key, resume⟩
                  | _ => none
              | _ => none
          | _ => none
      | _ => none
  | _, _ => none

/-- `set_session_resume` (thread_state.py lines 98-114).  Returns the new
document and whether `_save_locked` ran. -/
def set_session_resume (d : Doc) (room_id thread_root_event_id : String)
    (token : ResumeToken) : Doc × Bool :=
  match _normalize_text (some thread_root_event_id),
        _normalize_engine_id (some token.engine),
        _normalize_text (some token.value) with
  | some thread_key, some engine_key, some resume_value =>
      let t := ensuredEntry d room_id thread_key
      let sessions : JObj :=
        match jget t "sessions" with
        | some (.obj ss) => ss
        | _ => []
      let t1 := jset t "sessions" (.obj (jset sessions engine_key (.str resume_value)))
      (docSetThread d room_id thread_key (.obj t1), true)
  | _, _, _ => (d, false)

/-- `clear_sessions` (thread_state.py lines 116-133). -/
def clear_sessions (d : Doc) (room_id thread_root_event_id : String) :
    Except Unit (Doc × Bool) :=
  match _normalize_text (some thread_root_event_id) with
  | none => .ok (d, false)
  | some thread_key =>
      match jget d room_id with
      | some (.obj room) =>
          match jget room thread_key with
          | some (.obj thread_state) => do
              let t1 := jset thread_state "sessions" (.obj [])
              let e ← _thread_is_empty t1
              return (pruneWrite d room_id thread_key room t1 e, true)
          | _ => .ok (d, false)
      | _ => .ok (d, false)

/-- `get_context` (thread_state.py lines 135-153).  Reads the two context
scalars through `_normalize_text`, which raises on a wrong-typed value. -/
def get_context (d : Doc) (room_id thread_root_event_id : String) :
    Except Unit (Option RunContext) :=
  match _normalize_text (some thread_root_event_id) with
  | none => .ok none
  | some thread_key =>
      match jget d room_id with
      | some (.obj room) =>
          match jget room thread_key with
          | some (.obj thread_state) => do
              let project ← normTextJ (jget thread_state "context_project")
              let branch ← normTextJ (jget thread_state "context_branch")
              match project with
              | none => return none
              | some p => return some ⟨p, branch⟩
          | _ => .ok none
      | _ => .ok none

/-- `set_context` (thread_state.py lines 155-184). -/
def set_context (d : Doc) (room_id thread_root_event_id : String)
    (context : Option RunContext) : Except Unit (Doc × Bool) :=
  match _normalize_text (some thread_root_event_id) with
  | none => .ok (d, false)
  | some thread_key =>
      let project := match context with
        | none => none
        | some c => _normalize_text (some c.project)
      let branch := match context with
        | none => none
        | some c => _normalize_text c.branch
      match project with
      | none =>
          match jget d room_id with
          | some (.obj room) =>
              match jget room thread_key with
              | some (.obj thread_state) => do
                  let t1 := jset (jset thread_state "context_project" .null)
                    "context_branch" .null
                  let e ← _thread_is_empty t1
                  return (pruneWrite d room_id thread_key room t1 e, true)
              | _ => .ok (d, false)
          | _ => .ok (d, false)
      | some p =>
          let t := ensuredEntry d room_id thread_key
          let t1 := jset (jset t "context_project" (.str p)) "context_branch"
            (match branch with | some b => .str b | none => .null)
          .ok (docSetThread d room_id thread_key (.obj t1), true)

/-- `clear_context` (thread_state.py lines 186-187). -/
def clear_context (d : Doc) (room_id thread_root_event_id : String) :
    Except Unit (Doc × Bool) :=
  set_context d room_id thread_root_event_id none

/-- `get_default_engine` (thread_state.py lines 189-203). -/
def get_default_engine (d : Doc) (room_id thread_root_event_id : String) :
    Except Unit (Option String) :=
  match _normalize_text (some thread_root_event_id) with
  | none => .ok none
  | some thread_key =>
      match jget d room_id with
      | some (.obj room) =>
          match jget room thread_key with
          | some (.obj thread_state) =>
              normTextJ (jget thread_state "default_engine")
          | _ => .ok none
      | _ => .ok none

/-- `set_default_engine` (thread_state.py lines 205-231).  Note the engine id
goes through `_normalize_text` (strip only), not `_normalize_engine_id`. -/
def set_default_engine (d : Doc) (room_id thread_root_event_id : String)
    (engine : Option String) : Except Unit (Doc × Bool) :=
  match _normalize_text (some thread_root_event_id) with
  | none => .ok (d, false)
  | some thread_key =>
      match _normalize_text engine with
      | none =>
          match jget d room_id with
          | some (.obj room) =>
              match jget room thread_key with
              | some (.obj thread_state) => do
                  let t1 := jset thread_state "default_engine" .null
                  let e ← _thread_is_empty t1
                  return (pruneWrite d room_id thread_key room t1 e, true)
              | _ => .ok (d, false)
          | _ => .ok (d, false)
      | some eng =>
          let t := ensuredEntry d room_id thread_key
          let t1 := jset t "default_engine" (.str eng)
          .ok (docSetThread d room_id thread_key (.obj t1), true)

/-- `clear_default_engine` (thread_state.py lines 233-236). -/
def clear_default_engine (d : Doc) (room_id thread_root_event_id : String) :
    Except Unit (Doc × Bool) :=
  set_default_engine d room_id thread_root_event_id none

/-- `get_trigger_mode` (thread_state.py lines 238-253): whatever is stored is
collapsed to `"mentions"` or `None` at read time. -/
def get_trigger_mode (d : Doc) (room_id thread_root_event_id : String) :
    Except Unit (Option String) :=
  match _normalize_text (some thread_root_event_id) with
  | none => .ok none
  | some thread_key =>
      match jget d room_id with
      | some (.obj room) =>
          match jget room thread_key with
          | some (.obj thread_state) => do
              let mode ← normTextJ (jget thread_state "trigger_mode")
              return (if mode = some "mentions" then some "mentions" else none)
          | _ => .ok none
      | _ => .ok none

/-- `set_trigger_mode` (thread_state.py lines 255-280): any value other than
`"mentions"` (after strip) is normalized to `None`, i.e. a clear. -/
def set_trigger_mode (d : Doc) (room_id thread_root_event_id : String)
    (mode : Option String) : Except Unit (Doc × Bool) :=
  let normalized_mode :=
    if _normalize_text mode = some "mentions" then some "mentions" else none
  match _normalize_text (some thread_root_event_id) with
  | none => .ok (d, false)
  | some thread_key =>
      match normalized_mode with
      | none =>
          match jget d room_id with
          | some (.obj room) =>
              match jget room thread_key with
              | some (.obj thread_state) => do
                  let t1 := jset thread_state "trigger_mode" .null
                  let e ← _thread_is_empty t1
                  return (pruneWrite d room_id thread_key room t1 e, true)
              | _ => .ok (d, false)
          | _ => .ok (d, false)
      | some m =>
          let t := ensuredEntry d room_id thread_key
          let t1 := jset t "trigger_mode" (.str m)
          .ok (docSetThread d room_id thread_key (.obj t1), true)

/-- `clear_trigger_mode` (thread_state.py lines 282-283). -/
def clear_trigger_mode (d : Doc) (room_id thread_root_event_id : String) :
    Except Unit (Doc × Bool) :=
  set_trigger_mode d room_id thread_root_event_id none

/-- `get_engine_override` (thread_state.py lines 285-314).  Total: every read
is guarded by an `isinstance` check; wrong-typed `model`/`reasoning` values
are dropped field-by-field. -/
def get_engine_override (d : Doc) (room_id thread_root_event_id engine : String) :
    Option EngineOverrides :=
  match _normalize_text (some thread_root_event_id),
        _normalize_engine_id (some engine) with
  | some thread_key, some engine_key =>
      match jget d room_id with
      | some (.obj room) =>
          match jget room thread_key with
          | some (.obj thread_state) =>
              match jget thread_state "engine_overrides" with
              | some (.obj overrides) =>
                  match jget overrides engine_key with
                  | some (.obj value) =>
                      normalize_overrides (some
                        ⟨strOrNone (jget value "model"),
                         strOrNone (jget value "reasoning")⟩)
                  | _ => none
              | _ => none
          | _ => none
      | _ => none
  | _, _ => none

/-- The stored JSON form of a normalized override entry
(thread_state.py lines 349-352). -/
def overrideJson (o : EngineOverrides) : JValue :=
  .obj [("model", match o.model with | some m => .str m | none => .null),
        ("reasoning", match o.reasoning with | some r => .str r | none => .null)]

/-- `set_engine_override` (thread_state.py lines 316-353). -/
def set_engine_override (d : Doc) (room_id thread_root_event_id engine : String)
    (override : Option EngineOverrides) : Except Unit (Doc × Bool) :=
  match _normalize_text (some thread_root_event_id),
        _normalize_engine_id (some engine) with
  | some thread_key, some engine_key =>
      match normalize_overrides override with
      | none =>
          match jget d room_id with
          | some (.obj room) =>
              match jget room thread_key with
              | some (.obj thread_state) => do
                  let t1 :=
                    match jget thread_state "engine_overrides" with
                    | some (.obj ov) =>
                        jset thread_state "engine_overrides" (.obj (jpop ov engine_key))
                    | _ => thread_state
                  let e ← _thread_is_empty t1
                  return (pruneWrite d room_id thread_key room t1 e, true)
              | _ => .ok (d, false)
          | _ => .ok (d, false)
      | some no =>
          let t := ensuredEntry d room_id thread_key
          let ov : JObj :=
            match jget t "engine_overrides" with
            | some (.obj ov) => ov
            | _ => []
          let t1 := jset t "engine_overrides" (.obj (jset ov engine_key (overrideJson no)))
          .ok (docSetThread d room_id thread_key (.obj t1), true)
  | _, _ => .ok (d, false)

/-- `clear_engine_override` (thread_state.py lines 355-358). -/
def clear_engine_override (d : Doc) (room_id thread_root_event_id engine : String) :
    Except Unit (Doc × Bool) :=
  set_engine_override d room_id thread_root_event_id engine none

/-! ### Well-formedness predicates (claim C1) -/

/-- A scalar field value that `_normalize_text` accepts without raising:
missing, JSON `null`, or a string. -/
def scalarOkB (v : Option JValue) : Bool :=
  match v with
  | none => true
  | some .null => true
  | some (.str _) => true
  | some _ => false

/-- A scalar field value that reads as "set": a string that strips to
non-empty. -/
def fieldSet (v : Option JValue) : Bool :=
  match v with
  | some (.str s) => !(pyStrip s = "")
  | _ => false

/-- All four scalar fields of a thread entry are well-typed. -/
def scalarsOkB (t : JObj) : Bool :=
  scalarOkB (jget t "context_project") && scalarOkB (jget t "context_branch") &&
  scalarOkB (jget t "default_engine") && scalarOkB (jget t "trigger_mode")

/-- Boolean counterpart of `not (_thread_is_empty t)` for well-typed
entries. -/
def threadNonEmptyB (t : JObj) : Bool :=
  fieldSet (jget t "context_project") || fieldSet (jget t "context_branch") ||
  fieldSet (jget t "default_engine") || fieldSet (jget t "trigger_mode") ||
  (match jget t "engine_overrides" with
   | some (.obj ov) => !ov.isEmpty
   | _ => false) ||
  (match jget t "sessions" with
   | some (.obj ss) => !ss.isEmpty
   | _ => false)

/-- A good thread entry: well-typed scalar fields and not empty in the sense
of `_thread_is_empty`. -/
def goodEntryB (t : JObj) : Bool := scalarsOkB t && threadNonEmptyB t

/-- A room binding whose value is a good (object) thread entry. -/
def entryOk (q : String × JValue) : Bool :=
  match q.2 with
  | .obj t => goodEntryB t
  | _ => false

/-- A good room value: a non-empty object all of whose entries are good. -/
def goodRoomVal (v : JValue) : Bool :=
  match v with
  | .obj r => !r.isEmpty && r.all entryOk
  | _ => false

def roomOk (p : String × JValue) : Bool := goodRoomVal p.2

/-- A good document: every room is a non-empty map of non-empty, well-typed
thread entries. -/
def goodDocB (d : Doc) : Bool := d.all roomOk

/-- One mutating operation of `MatrixThreadStateStore`.  The `clear_*`
methods are the corresponding `set` with `none` (thread_state.py lines
186-187, 233-236, 282-283, 355-358), so this type covers every mutating
method of the store. -/
inductive StoreOp where
  | opSetSessionResume (room_id thread_root : String) (token : ResumeToken)
  | opClearSessions (room_id thread_root : String)
  | opSetContext (room_id thread_root : String) (context : Option RunContext)
  | opSetDefaultEngine (room_id thread_root : String) (engine : Option String)
  | opSetTriggerMode (room_id thread_root : String) (mode : Option String)
  | opSetEngineOverride (room_id thread_root engine : String)
      (override : Option EngineOverrides)

def applyOp (d : Doc) : StoreOp → Except Unit (Doc × Bool)
  | .opSetSessionResume rid tr tok => .ok (set_session_resume d rid tr tok)
  | .opClearSessions rid tr => clear_sessions d rid tr
  | .opSetContext rid tr c => set_context d rid tr c
  | .opSetDefaultEngine rid tr e => set_default_engine d rid tr e
  | .opSetTriggerMode rid tr m => set_trigger_mode d rid tr m
  | .opSetEngineOverride rid tr e o => set_engine_override d rid tr e o

/-- The document after one operation (an operation that raises leaves the
in-memory document as it was). -/
def stepOp (d : Doc) (op : StoreOp) : Doc :=
  match applyOp d op with
  | .ok (d', _) => d'
  | .error _ => d

/-- The document reached from `d` by a sequence of mutating operations. -/
def runOps (d : Doc) (ops : List StoreOp) : Doc := ops.foldl stepOp d

/-- The C1 invariant, spelled out: every room value in the document is a
non-empty object of thread entries, and every thread entry is an object on
which `_thread_is_empty` returns `false`. -/
def goodDocP (d : Doc) : Prop :=
  ∀ p ∈ d, ∃ r, p.2 = JValue.obj r ∧ r ≠ [] ∧
    ∀ q ∈ r, ∃ t, q.2 = JValue.obj t ∧ _thread_is_empty t = .ok false

/-! ### Engine selection (claim C2) -/

/-- `EngineResolution` of the missing `engine_defaults.py`: the chosen engine
id and the tag of the tier that supplied it. -/
structure EngineResolution where
  engine : String
  source : String
deriving DecidableEq, Repr

/-- `ENGINE_SOURCE_LABELS` (builtin.py lines 106-112): the user-facing label
for each engine-selection tier tag. -/
def ENGINE_SOURCE_LABELS : List (String × String) :=
  [("directive", "directive"),
   ("thread_default", "thread default"),
   ("room_default", "room default"),
   ("project_default", "project default"),
   ("global_default", "global default")]

/-- Modelled from the spec: `resolve_engine_for_message` of the missing
`engine_defaults.py` (spec §4.4), over already-fetched scope data.  The
precedence order, highest first: explicit per-message directive, thread
default engine (only if the message belongs to a thread), room default
engine, project default engine, global default engine (always present). -/
def resolve_engine_for_message (explicit_engine : Option String)
    (in_thread : Bool) (thread_default room_default project_default : Option String)
    (global_default : String) : EngineResolution :=
  match explicit_engine with
  | some e => ⟨e, "directive"⟩
  | none =>
    match (if in_thread then thread_default else none) with
    | some e => ⟨e, "thread_default"⟩
    | none =>
      match room_default with
      | some e => ⟨e, "room_default"⟩
      | none =>
        match project_default with
        | some e => ⟨e, "project_default"⟩
        | none => ⟨global_default, "global_default"⟩

/-- The candidate list the spec's precedence order describes, highest tier
first; the last element (the global default) is always present. -/
def tierCandidates (explicit_engine : Option String) (in_thread : Bool)
    (thread_default room_default project_default : Option String)
    (global_default : String) : List (Option String × String) :=
  [(explicit_engine, "directive"),
   ((if in_thread then thread_default else none), "thread_default"),
   (room_default, "room_default"),
   (project_default, "project_default"),
   (some global_default, "global_default")]

/-- The first present candidate, as a specification of tier precedence. -/
def firstPresent (l : List (Option String × String)) : Option EngineResolution :=
  match l with
  | [] => none
  | (some e, tag) :: _ => some ⟨e, tag⟩
  | (none, _) :: rest => firstPresent rest

/-! ### Command-layer override updates (claim C4) -/

/-- The update closure of `/model set` (builtin.py lines 574-577): replace
`model`, keep the current `reasoning`. -/
def modelSetUpdate (v : String) (current : Option EngineOverrides) :
    Option EngineOverrides :=
  some ⟨some v, match current with | some c => c.reasoning | none => none⟩

/-- The update closure of `/reasoning set` (builtin.py lines 716-719): keep
the current `model`, replace `reasoning`. -/
def reasoningSetUpdate (v : String) (current : Option EngineOverrides) :
    Option EngineOverrides :=
  some ⟨(match current with | some c => c.model | none => none), some v⟩

/-- `_apply_override_update` (builtin.py lines 250-270), thread branch: read
the current override for the engine in the thread scope, apply the update
closure, and store the result. -/
def apply_override_update_thread (d : Doc) (room_id thread_root engine : String)
    (update : Option EngineOverrides → Option EngineOverrides) :
    Except Unit (Doc × Bool) :=
  set_engine_override d room_id thread_root engine
    (update (get_engine_override d room_id thread_root engine))

/-- A room binding whose (object) value has pairwise-distinct keys. -/
def roomKeysOkB (p : String × JValue) : Bool :=
  match p.2 with
  | JValue.obj r => decide (r.map Prod.fst).Nodup
  | _ => true

/-- Python dicts cannot hold duplicate keys: documents decoded from JSON have
pairwise-distinct keys at every level.  (The association-list model can
represent duplicate keys, which no Python state can; statements about
arbitrary documents assume this.) -/
def keysNodupB (d : Doc) : Bool :=
  decide (d.map Prod.fst).Nodup && d.all roomKeysOkB

/-! ### Association-list lemmas -/

theorem jget_jset_self (m : JObj) (k : String) (v : JValue) :
    jget (jset m k v) k = some v := by
  induction m with
  | nil => simp [jget, jset]
  | cons a rest ih =>
    obtain ⟨k', v'⟩ := a
    by_cases h : k' = k <;> simp [jget, jset, h, ih]

theorem jget_jset_ne (m : JObj) (k k' : String) (v : JValue) (h : k' ≠ k) :
    jget (jset m k v) k' = jget m k' := by
  induction m with
  | nil =>
    simp only [jset, jget]
    rw [if_neg (fun hh => h hh.symm)]
  | cons a rest ih =>
    obtain ⟨k₀, v₀⟩ := a
    by_cases h0 : k₀ = k
    · subst h0
      simp only [jset, if_pos rfl, jget]
      rw [if_neg (fun hh => h hh.symm), if_neg (fun hh => h hh.symm)]
    · simp only [jset, if_neg h0, jget, ih]

theorem mem_jset (m : JObj) (k : String) (v : JValue) (x : String × JValue)
    (h : x ∈ jset m k v) : x = (k, v) ∨ x ∈ m := by
  induction m with
  | nil => simpa [jset] using h
  | cons a rest ih =>
    obtain ⟨k₀, v₀⟩ := a
    by_cases h0 : k₀ = k
    · simp only [jset, if_pos h0, List.mem_cons] at h
      rcases h with h | h
      · exact Or.inl h
      · exact Or.inr (List.mem_cons_of_mem _ h)
    · simp only [jset, if_neg h0, List.mem_cons] at h
      rcases h with h | h
      · exact Or.inr (by simp [h])
      · rcases ih h with h | h
        · exact Or.inl h
        · exact Or.inr (List.mem_cons_of_mem _ h)

theorem mem_jpop (m : JObj) (k : String) (x : String × JValue)
    (h : x ∈ jpop m k) : x ∈ m := by
  induction m with
  | nil => simpa [jpop] using h
  | cons a rest ih =>
    obtain ⟨k₀, v₀⟩ := a
    by_cases h0 : k₀ = k
    · simp only [jpop, if_pos h0] at h
      exact List.mem_cons_of_mem _ h
    · simp only [jpop, if_neg h0, List.mem_cons] at h
      rcases h with h | h
      · simp [h]
      · exact List.mem_cons_of_mem _ (ih h)

theorem jpop_jset_same (m : JObj) (k : String) (v : JValue) :
    jpop (jset m k v) k = jpop m k := by
  induction m with
  | nil => simp [jset, jpop]
  | cons a rest ih =>
    obtain ⟨k₀, v₀⟩ := a
    by_cases h0 : k₀ = k <;> simp [jset, jpop, h0, ih]

theorem jset_ne_nil (m : JObj) (k : String) (v : JValue) : jset m k v ≠ [] := by
  cases m with
  | nil => simp [jset]
  | cons a rest =>
    obtain ⟨k₀, v₀⟩ := a
    by_cases h0 : k₀ = k <;> simp [jset, h0]

theorem jset_eq_self (m : JObj) (k : String) (v : JValue)
    (h : jget m k = some v) : jset m k v = m := by
  induction m with
  | nil => simp [jget] at h
  | cons a rest ih =>
    obtain ⟨k₀, v₀⟩ := a
    by_cases h0 : k₀ = k
    · subst h0
      simp only [jget, if_true, eq_self_iff_true, Option.some.injEq] at h
      subst h
      simp [jset]
    · simp only [jget, if_neg h0] at h
      simp [jset, h0, ih h]

theorem jpop_eq_self (m : JObj) (k : String) (h : jget m k = none) :
    jpop m k = m := by
  induction m with
  | nil => simp [jpop]
  | cons a rest ih =>
    obtain ⟨k₀, v₀⟩ := a
    by_cases h0 : k₀ = k
    · simp [jget, h0] at h
    · simp only [jget, if_neg h0] at h
      simp [jpop, h0, ih h]

/-! ### String-normalization lemmas -/

theorem head?_dropWhile_not (l : List Char) (p : Char → Bool) (c : Char)
    (h : (l.dropWhile p).head? = some c) : ¬ p c := by
  induction l with
  | nil => simp [List.dropWhile] at h
  | cons a as ih =>
    rw [List.dropWhile_cons] at h
    split at h
    · exact ih h
    · simp_all

theorem getLast?_dropWhile (l : List Char) (p : Char → Bool)
    (h : l.dropWhile p ≠ []) :
    (l.dropWhile p).getLast? = l.getLast? := by
  induction l with
  | nil => simp at h
  | cons a as ih =>
    rw [List.dropWhile_cons] at h ⊢
    split at h
    · rename_i hp
      rw [if_pos hp, ih h, List.getLast?_cons]
      cases hh : as.getLast? with
      | none =>
        rw [List.getLast?_eq_none_iff] at hh
        subst hh
        simp [List.dropWhile] at h
      | some x => simp [hh]
    · rename_i hp
      rw [if_neg hp]

theorem dropWhile_eq_self_of_head? {p : Char → Bool} {l : List Char}
    (h : ∀ c, l.head? = some c → ¬ p c) : l.dropWhile p = l := by
  cases l with
  | nil => rfl
  | cons a as => rw [List.dropWhile_cons, if_neg (by simpa using h a rfl)]

theorem stripChars_idem (l : List Char) :
    stripChars (stripChars l) = stripChars l := by
  have hfront :
      ((l.dropWhile Char.isWhitespace).reverse.dropWhile
          Char.isWhitespace).reverse.dropWhile Char.isWhitespace
        = ((l.dropWhile Char.isWhitespace).reverse.dropWhile
            Char.isWhitespace).reverse := by
    apply dropWhile_eq_self_of_head?
    intro c hc
    rw [List.head?_reverse] at hc
    have hne : (l.dropWhile Char.isWhitespace).reverse.dropWhile
        Char.isWhitespace ≠ [] := by
      intro h0
      rw [h0] at hc
      simp at hc
    rw [getLast?_dropWhile _ _ hne, List.getLast?_reverse] at hc
    exact head?_dropWhile_not l _ c hc
  unfold stripChars
  rw [hfront, List.reverse_reverse, List.dropWhile_idempotent]

theorem pyStrip_idem (s : String) : pyStrip (pyStrip s) = pyStrip s := by
  simp [pyStrip, stripChars_idem]

theorem pyStrip_empty : pyStrip "" = "" := rfl

/-- The output of a successful `_normalize_text` is a fixed point of
`_normalize_text`. -/
theorem normalize_text_fix {s t : String}
    (h : _normalize_text (some s) = some t) :
    _normalize_text (some t) = some t ∧ t ≠ "" := by
  unfold _normalize_text at h
  by_cases he : pyStrip s = ""
  · simp [he] at h
  · simp only [if_neg he, Option.some.injEq] at h
    subst h
    refine ⟨?_, he⟩
    unfold _normalize_text
    simp [pyStrip_idem, he]

/-! ### Well-formedness invariant machinery (claim C1) -/

theorem normTextJ_of_scalarOk {v : Option JValue} (h : scalarOkB v = true) :
    ∃ r, normTextJ v = .ok r ∧ r.isSome = fieldSet v := by
  match v with
  | none => exact ⟨none, rfl, rfl⟩
  | some .null => exact ⟨none, rfl, rfl⟩
  | some (.str s) =>
    refine ⟨_normalize_text (some s), rfl, ?_⟩
    unfold _normalize_text fieldSet
    by_cases hs : pyStrip s = "" <;> simp [hs]
  | some (.num n) => simp [scalarOkB] at h
  | some (.bool b) => simp [scalarOkB] at h
  | some (.obj o) => simp [scalarOkB] at h
  | some (.arr a) => simp [scalarOkB] at h

theorem ite_ok_bool (b : Bool) :
    (if b = true then (Except.ok true : Except Unit Bool) else Except.ok false)
      = Except.ok b := by
  cases b <;> simp

theorem ite_ok_and (a b : Bool) :
    (if a = true then (Except.ok b : Except Unit Bool) else Except.ok false)
      = Except.ok (a && b) := by
  cases a <;> simp

theorem thread_is_empty_eq {t : JObj} (h : scalarsOkB t = true) :
    _thread_is_empty t = .ok (!threadNonEmptyB t) := by
  simp only [scalarsOkB, Bool.and_eq_true] at h
  obtain ⟨⟨⟨h1, h2⟩, h3⟩, h4⟩ := h
  obtain ⟨r1, e1, s1⟩ := normTextJ_of_scalarOk h1
  obtain ⟨r2, e2, s2⟩ := normTextJ_of_scalarOk h2
  obtain ⟨r3, e3, s3⟩ := normTextJ_of_scalarOk h3
  obtain ⟨r4, e4, s4⟩ := normTextJ_of_scalarOk h4
  unfold _thread_is_empty threadNonEmptyB
  rw [e1, e2, e3, e4]
  simp only [bind, Except.bind, ← s1, ← s2, ← s3, ← s4]
  cases r1 <;> cases r2 <;> cases r3 <;> cases r4 <;>
    simp [pure, Except.pure, ite_ok_bool, ite_ok_and] <;>
    rcases jget t "engine_overrides" with _ | _ | _ | _ | ov | _ <;>
    rcases jget t "sessions" with _ | _ | _ | _ | ss | _ <;>
    simp [pure, Except.pure, ite_ok_bool, ite_ok_and] <;>
    try (rcases ov with _ | ⟨a, ov'⟩ <;> simp [pure, Except.pure, ite_ok_bool, ite_ok_and]) <;>
    try (rcases ss with _ | ⟨b, ss'⟩ <;> simp [pure, Except.pure, ite_ok_bool, ite_ok_and])

theorem all_jpop {p : String × JValue → Bool} {m : JObj}
    (h : m.all p = true) (k : String) : (jpop m k).all p = true := by
  rw [List.all_eq_true] at *
  exact fun x hx => h x (mem_jpop m k x hx)

theorem all_jset {p : String × JValue → Bool} {m : JObj} {k : String}
    {v : JValue} (h : m.all p = true) (hv : p (k, v) = true) :
    (jset m k v).all p = true := by
  rw [List.all_eq_true] at *
  intro x hx
  rcases mem_jset m k v x hx with h' | h'
  · subst h'; exact hv
  · exact h x h'

theorem jget_mem {m : JObj} {k : String} {v : JValue}
    (h : jget m k = some v) : (k, v) ∈ m := by
  induction m with
  | nil => simp [jget] at h
  | cons a rest ih =>
    obtain ⟨k₀, v₀⟩ := a
    by_cases h0 : k₀ = k
    · subst h0
      rw [jget, if_pos rfl] at h
      cases h
      exact List.mem_cons_self _ _
    · rw [jget, if_neg h0] at h
      exact List.mem_cons_of_mem _ (ih h)

theorem goodRoomVal_of_doc {d : Doc} {rid : String} {v : JValue}
    (hd : goodDocB d = true) (h : jget d rid = some v) :
    goodRoomVal v = true := by
  rw [goodDocB, List.all_eq_true] at hd
  exact hd _ (jget_mem h)

theorem goodEntryB_of_room {r : JObj} {tk : String} {v : JValue}
    (hr : goodRoomVal (.obj r) = true) (h : jget r tk = some v) :
    entryOk (tk, v) = true := by
  rw [goodRoomVal, Bool.and_eq_true, List.all_eq_true] at hr
  exact hr.2 _ (jget_mem h)

theorem scalarOkB_jget_jset {t : JObj} {f n : String} {v : JValue}
    (hn : scalarOkB (jget t n) = true) (hv : scalarOkB (some v) = true) :
    scalarOkB (jget (jset t f v) n) = true := by
  by_cases hnf : n = f
  · subst hnf
    rw [jget_jset_self]
    exact hv
  · rw [jget_jset_ne _ _ _ _ hnf]
    exact hn

theorem scalarsOkB_jset_ok {t : JObj} {f : String} {v : JValue}
    (h : scalarsOkB t = true) (hv : scalarOkB (some v) = true) :
    scalarsOkB (jset t f v) = true := by
  simp only [scalarsOkB, Bool.and_eq_true] at h ⊢
  exact ⟨⟨⟨scalarOkB_jget_jset h.1.1.1 hv, scalarOkB_jget_jset h.1.1.2 hv⟩,
    scalarOkB_jget_jset h.1.2 hv⟩, scalarOkB_jget_jset h.2 hv⟩

theorem scalarsOkB_jset_nonscalar {t : JObj} {f : String} {v : JValue}
    (hf1 : "context_project" ≠ f) (hf2 : "context_branch" ≠ f)
    (hf3 : "default_engine" ≠ f) (hf4 : "trigger_mode" ≠ f) :
    scalarsOkB (jset t f v) = scalarsOkB t := by
  unfold scalarsOkB
  rw [jget_jset_ne _ _ _ _ hf1, jget_jset_ne _ _ _ _ hf2,
    jget_jset_ne _ _ _ _ hf3, jget_jset_ne _ _ _ _ hf4]

theorem threadNonEmptyB_of_field {t : JObj} {n : String}
    (hn : n = "context_project" ∨ n = "context_branch" ∨
      n = "default_engine" ∨ n = "trigger_mode")
    (hs : fieldSet (jget t n) = true) : threadNonEmptyB t = true := by
  unfold threadNonEmptyB
  rcases hn with h | h | h | h <;> subst h <;> simp [hs]

theorem threadNonEmptyB_of_sessions {t : JObj} {ss : JObj}
    (h : jget t "sessions" = some (.obj ss)) (hne : ss ≠ []) :
    threadNonEmptyB t = true := by
  unfold threadNonEmptyB
  rw [h]
  simp [hne]

theorem threadNonEmptyB_of_overrides {t : JObj} {ov : JObj}
    (h : jget t "engine_overrides" = some (.obj ov)) (hne : ov ≠ []) :
    threadNonEmptyB t = true := by
  unfold threadNonEmptyB
  rw [h]
  simp [hne]

theorem scalarsOkB_new_thread_entry : scalarsOkB _new_thread_entry = true := by
  rfl

theorem scalarsOkB_ensuredEntry {d : Doc} (hd : goodDocB d = true)
    (rid tk : String) : scalarsOkB (ensuredEntry d rid tk) = true := by
  unfold ensuredEntry
  rcases hjr : jget d rid with _ | rv
  · exact scalarsOkB_new_thread_entry
  · have hrv := goodRoomVal_of_doc hd hjr
    rcases rv with _ | _ | _ | _ | r | _ <;>
      simp only [] <;> try exact scalarsOkB_new_thread_entry
    rcases hjt : jget r tk with _ | tv
    · exact scalarsOkB_new_thread_entry
    · have het := goodEntryB_of_room hrv hjt
      rcases tv with _ | _ | _ | _ | t | _ <;>
        simp only [] <;> try exact scalarsOkB_new_thread_entry
      simp only [entryOk, goodEntryB, Bool.and_eq_true] at het
      exact het.1

/-- Goodness is preserved by the common set-path tail. -/
theorem goodDocB_docSetThread {d : Doc} {rid tk : String} {t1 : JObj}
    (hd : goodDocB d = true) (ht : goodEntryB t1 = true) :
    goodDocB (docSetThread d rid tk (.obj t1)) = true := by
  unfold docSetThread goodDocB
  apply all_jset hd
  show goodRoomVal _ = true
  unfold goodRoomVal
  rw [Bool.and_eq_true]
  constructor
  · simp [List.isEmpty_iff, jset_ne_nil]
  · have hall : (match jget d rid with
        | some (.obj r) => r
        | _ => ([] : JObj)).all entryOk = true := by
      rcases hjr : jget d rid with _ | rv
      · rfl
      · have hrv := goodRoomVal_of_doc hd hjr
        rcases rv with _ | _ | _ | _ | r | _ <;> try rfl
        rw [goodRoomVal, Bool.and_eq_true] at hrv
        exact hrv.2
    exact all_jset hall (by simpa [entryOk] using ht)

theorem pruneWrite_false (d : Doc) (rid tk : String) (r t1 : JObj) :
    pruneWrite d rid tk r t1 false
      = jset d rid (.obj (jset r tk (.obj t1))) := by
  unfold pruneWrite
  simp [jset_ne_nil, List.isEmpty_iff]

theorem pruneWrite_true (d : Doc) (rid tk : String) (r t1 : JObj) :
    pruneWrite d rid tk r t1 true
      = if (jpop r tk).isEmpty then jpop d rid
        else jset d rid (.obj (jpop r tk)) := by
  unfold pruneWrite
  simp only [if_true]
  rw [jpop_jset_same]

/-- Goodness is preserved by the common clear-path tail. -/
theorem goodDocB_pruneWrite {d : Doc} {rid tk : String} {r t1 : JObj}
    {emptyNow : Bool} (hd : goodDocB d = true)
    (hr : jget d rid = some (.obj r)) (hok : scalarsOkB t1 = true)
    (hemp : emptyNow = !threadNonEmptyB t1) :
    goodDocB (pruneWrite d rid tk r t1 emptyNow) = true := by
  have hrall : r.all entryOk = true := by
    have := goodRoomVal_of_doc hd hr
    rw [goodRoomVal, Bool.and_eq_true] at this
    exact this.2
  subst hemp
  cases hne : threadNonEmptyB t1 with
  | false =>
    rw [Bool.not_false, pruneWrite_true]
    have hall2 : (jpop r tk).all entryOk = true := all_jpop hrall tk
    by_cases hnil : (jpop r tk).isEmpty
    · rw [if_pos hnil]
      exact all_jpop hd rid
    · rw [if_neg hnil]
      apply all_jset hd
      show goodRoomVal _ = true
      rw [goodRoomVal, Bool.and_eq_true]
      exact ⟨by simpa using hnil, hall2⟩
  | true =>
    rw [Bool.not_true, pruneWrite_false]
    apply all_jset hd
    show goodRoomVal _ = true
    rw [goodRoomVal, Bool.and_eq_true]
    refine ⟨by simp [List.isEmpty_iff, jset_ne_nil], all_jset hrall ?_⟩
    simp [entryOk, goodEntryB, hok, hne]

/-- A successful `_normalize_text` output is trimmed and non-empty. -/
theorem normalize_text_strip {s? : Option String} {t : String}
    (h : _normalize_text s? = some t) : pyStrip t = t ∧ t ≠ "" := by
  cases s? with
  | none => simp [_normalize_text] at h
  | some s =>
    unfold _normalize_text at h
    by_cases he : pyStrip s = ""
    · simp [he] at h
    · simp only [if_neg he, Option.some.injEq] at h
      subst h
      exact ⟨pyStrip_idem s, he⟩

theorem fieldSet_of_normalized {t : String}
    (h1 : pyStrip t = t) (h2 : t ≠ "") :
    fieldSet (some (.str t)) = true := by
  simp [fieldSet, h1, h2]

theorem scalars_of_doc {d : Doc} {rid tk : String} {r t : JObj}
    (hd : goodDocB d = true) (hr : jget d rid = some (.obj r))
    (ht : jget r tk = some (.obj t)) : scalarsOkB t = true := by
  have h1 := goodEntryB_of_room (goodRoomVal_of_doc hd hr) ht
  simp only [entryOk, goodEntryB, Bool.and_eq_true] at h1
  exact h1.1

/-! ### Per-operation preservation of the good-document invariant -/

theorem set_session_resume_good {d : Doc} (hd : goodDocB d = true)
    (rid tr : String) (tok : ResumeToken) :
    goodDocB (set_session_resume d rid tr tok).1 = true := by
  unfold set_session_resume
  rcases _normalize_text (some tr) with _ | tk
  · exact hd
  rcases _normalize_engine_id (some tok.engine) with _ | ek
  · exact hd
  rcases _normalize_text (some tok.value) with _ | rv
  · exact hd
  apply goodDocB_docSetThread hd
  rw [goodEntryB, Bool.and_eq_true]
  constructor
  · rw [scalarsOkB_jset_nonscalar (by decide) (by decide) (by decide) (by decide)]
    exact scalarsOkB_ensuredEntry hd rid tk
  · exact threadNonEmptyB_of_sessions (jget_jset_self _ _ _) (jset_ne_nil _ _ _)

theorem clear_sessions_good {d : Doc} (hd : goodDocB d = true)
    (rid tr : String) :
    ∃ p, clear_sessions d rid tr = .ok p ∧ goodDocB p.1 = true := by
  unfold clear_sessions
  rcases _normalize_text (some tr) with _ | tk
  · exact ⟨(d, false), rfl, hd⟩
  rcases hjr : jget d rid with _ | rv
  · exact ⟨(d, false), rfl, hd⟩
  rcases rv with _ | _ | _ | _ | room | _
  case null => exact ⟨(d, false), rfl, hd⟩
  case str => exact ⟨(d, false), rfl, hd⟩
  case num => exact ⟨(d, false), rfl, hd⟩
  case bool => exact ⟨(d, false), rfl, hd⟩
  case arr => exact ⟨(d, false), rfl, hd⟩
  dsimp only
  rcases hjt : jget room tk with _ | tv
  · exact ⟨(d, false), rfl, hd⟩
  rcases tv with _ | _ | _ | _ | t | _
  case null => exact ⟨(d, false), rfl, hd⟩
  case str => exact ⟨(d, false), rfl, hd⟩
  case num => exact ⟨(d, false), rfl, hd⟩
  case bool => exact ⟨(d, false), rfl, hd⟩
  case arr => exact ⟨(d, false), rfl, hd⟩
  dsimp only
  have hok : scalarsOkB (jset t "sessions" (.obj [])) = true := by
    rw [scalarsOkB_jset_nonscalar (by decide) (by decide) (by decide) (by decide)]
    exact scalars_of_doc hd hjr hjt
  rw [thread_is_empty_eq hok]
  refine ⟨(pruneWrite d rid tk room (jset t "sessions" (.obj []))
    (!threadNonEmptyB (jset t "sessions" (.obj []))), true), ?_, ?_⟩
  · rfl
  · exact goodDocB_pruneWrite hd hjr hok rfl

theorem set_context_good {d : Doc} (hd : goodDocB d = true)
    (rid tr : String) (ctx : Option RunContext) :
    ∃ p, set_context d rid tr ctx = .ok p ∧ goodDocB p.1 = true := by
  unfold set_context
  rcases _normalize_text (some tr) with _ | tk
  · exact ⟨(d, false), rfl, hd⟩
  dsimp only
  have clearCase : ∀ hbr,
      (match jget d rid with
        | some (.obj room) =>
            match jget room tk with
            | some (.obj thread_state) => do
                let t1 := jset (jset thread_state "context_project" .null)
                  "context_branch" .null
                let e ← _thread_is_empty t1
                pure (pruneWrite d rid tk room t1 e, true)
            | _ => (Except.ok (d, false) : Except Unit (Doc × Bool))
        | _ => Except.ok (d, false)) = .ok hbr →
      goodDocB hbr.1 = true ∨ True := fun _ _ => Or.inr trivial
  clear clearCase
  rcases ctx with _ | c
  all_goals dsimp only
  case none =>
    rcases hjr : jget d rid with _ | rv
    · exact ⟨(d, false), rfl, hd⟩
    rcases rv with _ | _ | _ | _ | room | _
    case null => exact ⟨(d, false), rfl, hd⟩
    case str => exact ⟨(d, false), rfl, hd⟩
    case num => exact ⟨(d, false), rfl, hd⟩
    case bool => exact ⟨(d, false), rfl, hd⟩
    case arr => exact ⟨(d, false), rfl, hd⟩
    dsimp only
    rcases hjt : jget room tk with _ | tv
    · exact ⟨(d, false), rfl, hd⟩
    rcases tv with _ | _ | _ | _ | t | _
    case null => exact ⟨(d, false), rfl, hd⟩
    case str => exact ⟨(d, false), rfl, hd⟩
    case num => exact ⟨(d, false), rfl, hd⟩
    case bool => exact ⟨(d, false), rfl, hd⟩
    case arr => exact ⟨(d, false), rfl, hd⟩
    dsimp only
    have hok : scalarsOkB (jset (jset t "context_project" .null)
        "context_branch" .null) = true :=
      scalarsOkB_jset_ok (scalarsOkB_jset_ok (scalars_of_doc hd hjr hjt) rfl) rfl
    rw [thread_is_empty_eq hok]
    exact ⟨_, rfl, goodDocB_pruneWrite hd hjr hok rfl⟩
  case some =>
    rcases hp : _normalize_text (some c.project) with _ | p
    all_goals dsimp only
    · rcases hjr : jget d rid with _ | rv
      · exact ⟨(d, false), rfl, hd⟩
      rcases rv with _ | _ | _ | _ | room | _
      case null => exact ⟨(d, false), rfl, hd⟩
      case str => exact ⟨(d, false), rfl, hd⟩
      case num => exact ⟨(d, false), rfl, hd⟩
      case bool => exact ⟨(d, false), rfl, hd⟩
      case arr => exact ⟨(d, false), rfl, hd⟩
      dsimp only
      rcases hjt : jget room tk with _ | tv
      · exact ⟨(d, false), rfl, hd⟩
      rcases tv with _ | _ | _ | _ | t | _
      case null => exact ⟨(d, false), rfl, hd⟩
      case str => exact ⟨(d, false), rfl, hd⟩
      case num => exact ⟨(d, false), rfl, hd⟩
      case bool => exact ⟨(d, false), rfl, hd⟩
      case arr => exact ⟨(d, false), rfl, hd⟩
      dsimp only
      have hok : scalarsOkB (jset (jset t "context_project" .null)
          "context_branch" .null) = true :=
        scalarsOkB_jset_ok (scalarsOkB_jset_ok (scalars_of_doc hd hjr hjt) rfl) rfl
      rw [thread_is_empty_eq hok]
      exact ⟨_, rfl, goodDocB_pruneWrite hd hjr hok rfl⟩
    · refine ⟨_, rfl, goodDocB_docSetThread hd ?_⟩
      rw [goodEntryB, Bool.and_eq_true]
      obtain ⟨hps, hpne⟩ := normalize_text_strip hp
      constructor
      · refine scalarsOkB_jset_ok (scalarsOkB_jset_ok
          (scalarsOkB_ensuredEntry hd rid tk) ?_) ?_
        · rfl
        · rcases _normalize_text c.branch with _ | b <;> rfl
      · apply threadNonEmptyB_of_field (Or.inl rfl)
        rw [jget_jset_ne _ _ _ _ (by decide), jget_jset_self]
        exact fieldSet_of_normalized hps hpne

theorem set_default_engine_good {d : Doc} (hd : goodDocB d = true)
    (rid tr : String) (engine : Option String) :
    ∃ p, set_default_engine d rid tr engine = .ok p ∧ goodDocB p.1 = true := by
  unfold set_default_engine
  rcases _normalize_text (some tr) with _ | tk
  · exact ⟨(d, false), rfl, hd⟩
  dsimp only
  rcases he : _normalize_text engine with _ | eng
  all_goals dsimp only
  · rcases hjr : jget d rid with _ | rv
    · exact ⟨(d, false), rfl, hd⟩
    rcases rv with _ | _ | _ | _ | room | _
    case null => exact ⟨(d, false), rfl, hd⟩
    case str => exact ⟨(d, false), rfl, hd⟩
    case num => exact ⟨(d, false), rfl, hd⟩
    case bool => exact ⟨(d, false), rfl, hd⟩
    case arr => exact ⟨(d, false), rfl, hd⟩
    dsimp only
    rcases hjt : jget room tk with _ | tv
    · exact ⟨(d, false), rfl, hd⟩
    rcases tv with _ | _ | _ | _ | t | _
    case null => exact ⟨(d, false), rfl, hd⟩
    case str => exact ⟨(d, false), rfl, hd⟩
    case num => exact ⟨(d, false), rfl, hd⟩
    case bool => exact ⟨(d, false), rfl, hd⟩
    case arr => exact ⟨(d, false), rfl, hd⟩
    dsimp only
    have hok : scalarsOkB (jset t "default_engine" .null) = true :=
      scalarsOkB_jset_ok (scalars_of_doc hd hjr hjt) rfl
    rw [thread_is_empty_eq hok]
    exact ⟨_, rfl, goodDocB_pruneWrite hd hjr hok rfl⟩
  · refine ⟨_, rfl, goodDocB_docSetThread hd ?_⟩
    rw [goodEntryB, Bool.and_eq_true]
    obtain ⟨hes, hene⟩ := normalize_text_strip he
    refine ⟨scalarsOkB_jset_ok (scalarsOkB_ensuredEntry hd rid tk) rfl, ?_⟩
    apply threadNonEmptyB_of_field (Or.inr (Or.inr (Or.inl rfl)))
    rw [jget_jset_self]
    exact fieldSet_of_normalized hes hene

theorem set_trigger_mode_good {d : Doc} (hd : goodDocB d = true)
    (rid tr : String) (mode : Option String) :
    ∃ p, set_trigger_mode d rid tr mode = .ok p ∧ goodDocB p.1 = true := by
  unfold set_trigger_mode
  rcases _normalize_text (some tr) with _ | tk
  · exact ⟨(d, false), rfl, hd⟩
  dsimp only
  by_cases hm : _normalize_text mode = some "mentions"
  case neg =>
    rw [if_neg hm]
    dsimp only
    rcases hjr : jget d rid with _ | rv
    · exact ⟨(d, false), rfl, hd⟩
    rcases rv with _ | _ | _ | _ | room | _
    case null => exact ⟨(d, false), rfl, hd⟩
    case str => exact ⟨(d, false), rfl, hd⟩
    case num => exact ⟨(d, false), rfl, hd⟩
    case bool => exact ⟨(d, false), rfl, hd⟩
    case arr => exact ⟨(d, false), rfl, hd⟩
    dsimp only
    rcases hjt : jget room tk with _ | tv
    · exact ⟨(d, false), rfl, hd⟩
    rcases tv with _ | _ | _ | _ | t | _
    case null => exact ⟨(d, false), rfl, hd⟩
    case str => exact ⟨(d, false), rfl, hd⟩
    case num => exact ⟨(d, false), rfl, hd⟩
    case bool => exact ⟨(d, false), rfl, hd⟩
    case arr => exact ⟨(d, false), rfl, hd⟩
    dsimp only
    have hok : scalarsOkB (jset t "trigger_mode" .null) = true :=
      scalarsOkB_jset_ok (scalars_of_doc hd hjr hjt) rfl
    rw [thread_is_empty_eq hok]
    exact ⟨_, rfl, goodDocB_pruneWrite hd hjr hok rfl⟩
  case pos =>
    rw [if_pos hm]
    dsimp only
    refine ⟨_, rfl, goodDocB_docSetThread hd ?_⟩
    rw [goodEntryB, Bool.and_eq_true]
    refine ⟨scalarsOkB_jset_ok (scalarsOkB_ensuredEntry hd rid tk) rfl, ?_⟩
    apply threadNonEmptyB_of_field (Or.inr (Or.inr (Or.inr rfl)))
    rw [jget_jset_self]
    exact fieldSet_of_normalized (by decide) (by decide)

theorem set_engine_override_good {d : Doc} (hd : goodDocB d = true)
    (rid tr eng : String) (ov : Option EngineOverrides) :
    ∃ p, set_engine_override d rid tr eng ov = .ok p ∧ goodDocB p.1 = true := by
  unfold set_engine_override
  rcases _normalize_text (some tr) with _ | tk
  · exact ⟨(d, false), rfl, hd⟩
  rcases _normalize_engine_id (some eng) with _ | ek
  · exact ⟨(d, false), rfl, hd⟩
  dsimp only
  rcases normalize_overrides ov with _ | no
  all_goals dsimp only
  · rcases hjr : jget d rid with _ | rv
    · exact ⟨(d, false), rfl, hd⟩
    rcases rv with _ | _ | _ | _ | room | _
    case null => exact ⟨(d, false), rfl, hd⟩
    case str => exact ⟨(d, false), rfl, hd⟩
    case num => exact ⟨(d, false), rfl, hd⟩
    case bool => exact ⟨(d, false), rfl, hd⟩
    case arr => exact ⟨(d, false), rfl, hd⟩
    dsimp only
    rcases hjt : jget room tk with _ | tv
    · exact ⟨(d, false), rfl, hd⟩
    rcases tv with _ | _ | _ | _ | t | _
    case null => exact ⟨(d, false), rfl, hd⟩
    case str => exact ⟨(d, false), rfl, hd⟩
    case num => exact ⟨(d, false), rfl, hd⟩
    case bool => exact ⟨(d, false), rfl, hd⟩
    case arr => exact ⟨(d, false), rfl, hd⟩
    dsimp only
    have hsc := scalars_of_doc hd hjr hjt
    rcases hw : jget t "engine_overrides" with _ | wv
    all_goals (try dsimp only)
    · rw [thread_is_empty_eq hsc]
      exact ⟨_, rfl, goodDocB_pruneWrite hd hjr hsc rfl⟩
    · rcases wv with _ | _ | _ | _ | ovm | _
      all_goals (try dsimp only)
      case obj =>
        have h1 : scalarsOkB (jset t "engine_overrides"
            (.obj (jpop ovm ek))) = true := by
          rw [scalarsOkB_jset_nonscalar (by decide) (by decide)
            (by decide) (by decide)]
          exact hsc
        rw [thread_is_empty_eq h1]
        exact ⟨_, rfl, goodDocB_pruneWrite hd hjr h1 rfl⟩
      all_goals
        rw [thread_is_empty_eq hsc]
        exact ⟨_, rfl, goodDocB_pruneWrite hd hjr hsc rfl⟩
  · refine ⟨_, rfl, goodDocB_docSetThread hd ?_⟩
    rw [goodEntryB, Bool.and_eq_true]
    constructor
    · rw [scalarsOkB_jset_nonscalar (by decide) (by decide) (by decide)
        (by decide)]
      exact scalarsOkB_ensuredEntry hd rid tk
    · exact threadNonEmptyB_of_overrides (jget_jset_self _ _ _) (jset_ne_nil _ _ _)

theorem stepOp_good {d : Doc} (hd : goodDocB d = true) (op : StoreOp) :
    goodDocB (stepOp d op) = true := by
  cases op with
  | opSetSessionResume rid tr tok =>
    simp only [stepOp, applyOp]
    exact set_session_resume_good hd rid tr tok
  | opClearSessions rid tr =>
    obtain ⟨p, hp, hg⟩ := clear_sessions_good hd rid tr
    simp only [stepOp, applyOp, hp]
    exact hg
  | opSetContext rid tr c =>
    obtain ⟨p, hp, hg⟩ := set_context_good hd rid tr c
    simp only [stepOp, applyOp, hp]
    exact hg
  | opSetDefaultEngine rid tr e =>
    obtain ⟨p, hp, hg⟩ := set_default_engine_good hd rid tr e
    simp only [stepOp, applyOp, hp]
    exact hg
  | opSetTriggerMode rid tr m =>
    obtain ⟨p, hp, hg⟩ := set_trigger_mode_good hd rid tr m
    simp only [stepOp, applyOp, hp]
    exact hg
  | opSetEngineOverride rid tr e o =>
    obtain ⟨p, hp, hg⟩ := set_engine_override_good hd rid tr e o
    simp only [stepOp, applyOp, hp]
    exact hg

theorem runOps_good {d : Doc} (hd : goodDocB d = true) (ops : List StoreOp) :
    goodDocB (runOps d ops) = true := by
  induction ops generalizing d with
  | nil => exact hd
  | cons op rest ih => exact ih (stepOp_good hd op)

theorem goodDocP_of_B {d : Doc} (h : goodDocB d = true) : goodDocP d := by
  intro p hp
  rw [goodDocB, List.all_eq_true] at h
  have h1 := h p hp
  rw [roomOk] at h1
  obtain ⟨rid, rv⟩ := p
  rcases rv with _ | _ | _ | _ | r | _ <;>
    try exact absurd h1 Bool.false_ne_true
  have h1' : (!r.isEmpty && r.all entryOk) = true := h1
  rw [Bool.and_eq_true, List.all_eq_true] at h1'
  have hne : r ≠ [] := by
    intro h0
    rw [h0] at h1'
    simp at h1'
  refine ⟨r, rfl, hne, ?_⟩
  intro q hq
  have h2 := h1'.2 q hq
  obtain ⟨tk, tv⟩ := q
  rcases tv with _ | _ | _ | _ | t | _ <;>
    try exact absurd h2 Bool.false_ne_true
  have h2' : (scalarsOkB t && threadNonEmptyB t) = true := h2
  rw [Bool.and_eq_true] at h2'
  exact ⟨t, rfl, by rw [thread_is_empty_eq h2'.1, h2'.2, Bool.not_true]⟩

/-- **C1**: starting from the store's initial empty document, after any
sequence of mutating thread-store operations (set/clear of context, default
engine, trigger mode, engine overrides, resume tokens), every room id left in
the document maps to a non-empty thread map, and every thread entry in it is
an object on which `_thread_is_empty` is `false`: an emptied thread entry is
always pruned from its room, an emptied room is pruned from the document, and
no reachable document contains an empty thread entry or an empty room map. -/
theorem thread_store_never_keeps_empty_entries (ops : List StoreOp) :
    goodDocP (runOps [] ops) :=
  goodDocP_of_B (@runOps_good [] rfl ops)

/-- **C2**: engine selection resolves to the first present value in the
order: explicit directive, thread default (only in a thread), room default,
project default, global default; the returned tag names the supplying tier
and is a key of `ENGINE_SOURCE_LABELS`. -/
theorem engine_selection_precedence (explicit_engine : Option String)
    (in_thread : Bool)
    (thread_default room_default project_default : Option String)
    (global_default : String) :
    firstPresent (tierCandidates explicit_engine in_thread thread_default
        room_default project_default global_default)
      = some (resolve_engine_for_message explicit_engine in_thread
          thread_default room_default project_default global_default)
    ∧ (ENGINE_SOURCE_LABELS.lookup
        (resolve_engine_for_message explicit_engine in_thread thread_default
          room_default project_default global_default).source).isSome = true := by
  rcases explicit_engine with _ | e <;>
    cases in_thread <;>
    rcases thread_default with _ | td <;>
    rcases room_default with _ | rd <;>
    rcases project_default with _ | pd <;>
    exact ⟨rfl, rfl⟩

/-- `_normalize_text` is invariant under pre-stripping its argument. -/
theorem normalize_text_strip_arg (s : String) :
    _normalize_text (some (pyStrip s)) = _normalize_text (some s) := by
  show (if pyStrip (pyStrip s) = "" then none else some (pyStrip (pyStrip s)))
    = (if pyStrip s = "" then none else some (pyStrip s))
  rw [pyStrip_idem]

/-- **C3 counterexample**: `set_default_engine` does not case-fold the engine
identifier: storing `"CODEX"` and reading it back yields `"CODEX"`, not
`"codex"` (the id goes through `_normalize_text`, which only strips). -/
theorem default_engine_not_lowercased_cex :
    ∃ p, set_default_engine [] "!r:x" "t1" (some "CODEX") = .ok p ∧
      get_default_engine p.1 "!r:x" "t1" = .ok (some "CODEX") ∧
      some "CODEX" ≠ some "codex" := by
  refine ⟨_, rfl, rfl, by decide⟩

/-- **C3 amended**: the store operations keyed by an engine id (session
resume tokens and engine overrides) strip and lowercase the id via
`_normalize_engine_id` — they behave identically under any two spellings with
the same normalization, and treat an empty/whitespace-only id as absent
(reads return `None`, writes are no-ops with no persisted write).
`set_default_engine`, by contrast, only strips its engine argument
(invariant under pre-stripping; the counterexample shows it does not
lowercase). -/
theorem engine_id_normalization (d : Doc) (rid tr e e' : String)
    (h : _normalize_engine_id (some e) = _normalize_engine_id (some e'))
    (tokv : String) (ov : Option EngineOverrides) (eng : String) :
    (get_session_resume d rid tr e = get_session_resume d rid tr e')
    ∧ (set_session_resume d rid tr ⟨e, tokv⟩
        = set_session_resume d rid tr ⟨e', tokv⟩)
    ∧ (get_engine_override d rid tr e = get_engine_override d rid tr e')
    ∧ (set_engine_override d rid tr e ov = set_engine_override d rid tr e' ov)
    ∧ (_normalize_engine_id (some e) = none →
        get_session_resume d rid tr e = none
        ∧ get_engine_override d rid tr e = none
        ∧ set_session_resume d rid tr ⟨e, tokv⟩ = (d, false)
        ∧ set_engine_override d rid tr e ov = .ok (d, false))
    ∧ (set_default_engine d rid tr (some eng)
        = set_default_engine d rid tr (some (pyStrip eng))) := by
  refine ⟨?_, ?_, ?_, ?_, ?_, ?_⟩
  · unfold get_session_resume
    rw [h]
  · unfold set_session_resume
    rw [h]
  · unfold get_engine_override
    rw [h]
  · unfold set_engine_override
    rw [h]
  · intro hz
    unfold get_session_resume set_session_resume get_engine_override
      set_engine_override
    rw [hz]
    rcases _normalize_text (some tr) with _ | tk <;>
      rcases _normalize_text (some tokv) with _ | rv <;>
      exact ⟨rfl, rfl, rfl, rfl⟩
  · unfold set_default_engine
    rw [normalize_text_strip_arg]

/-- A successful `_normalize_text` output is a fixed point of
`_normalize_text`. -/
theorem normalize_text_fixO {s? : Option String} {t : String}
    (h : _normalize_text s? = some t) : _normalize_text (some t) = some t := by
  obtain ⟨h1, h2⟩ := normalize_text_strip h
  unfold _normalize_text
  dsimp only
  rw [h1, if_neg h2]

/-- A normalized override entry is a fixed point of `normalize_overrides`,
and each of its fields is a fixed point of `_normalize_text`. -/
theorem normalize_overrides_fix {x : Option EngineOverrides}
    {o : EngineOverrides} (h : normalize_overrides x = some o) :
    normalize_overrides (some o) = some o
    ∧ _normalize_text o.model = o.model
    ∧ _normalize_text o.reasoning = o.reasoning := by
  rcases x with _ | e
  · exact Option.noConfusion h
  unfold normalize_overrides at h
  dsimp only at h
  by_cases hc : _normalize_text e.model = none ∧ _normalize_text e.reasoning = none
  · rw [if_pos hc] at h
    exact Option.noConfusion h
  · rw [if_neg hc] at h
    injection h with h
    subst h
    have hm : _normalize_text (_normalize_text e.model) = _normalize_text e.model := by
      rcases hm0 : _normalize_text e.model with _ | m
      · rfl
      · exact normalize_text_fixO hm0
    have hr : _normalize_text (_normalize_text e.reasoning)
        = _normalize_text e.reasoning := by
      rcases hr0 : _normalize_text e.reasoning with _ | r
      · rfl
      · exact normalize_text_fixO hr0
    refine ⟨?_, hm, hr⟩
    unfold normalize_overrides
    dsimp only
    rw [hm, hr, if_neg hc]

/-- Setting a (non-clearing) override under one engine-id spelling and
reading it back under any spelling with the same normalization returns the
normalized entry. -/
theorem set_engine_override_roundtrip (d : Doc) (rid tr e e2 : String)
    (ov : Option EngineOverrides) (no : EngineOverrides) (tk ek : String)
    (htk : _normalize_text (some tr) = some tk)
    (hek1 : _normalize_engine_id (some e) = some ek)
    (hek : _normalize_engine_id (some e2) = _normalize_engine_id (some e))
    (hno : normalize_overrides ov = some no) :
    ∃ p, set_engine_override d rid tr e ov = .ok p ∧
      get_engine_override p.1 rid tr e2 = some no := by
  unfold set_engine_override
  rw [htk, hek1, hno]
  dsimp only
  refine ⟨_, rfl, ?_⟩
  unfold get_engine_override
  rw [htk, hek, hek1]
  dsimp only
  unfold docSetThread
  dsimp only
  rw [jget_jset_self]
  dsimp only
  rw [jget_jset_self]
  dsimp only
  rw [jget_jset_self]
  dsimp only
  rw [jget_jset_self]
  obtain ⟨hfix, hmfix, hrfix⟩ := normalize_overrides_fix hno
  obtain ⟨m?, r?⟩ := no
  rcases m? with _ | m <;> rcases r? with _ | r <;>
    simp only [overrideJson, jget, strOrNone, if_pos, if_neg, reduceCtorEq] <;>
    first
      | exact hfix
      | simpa using hfix

/-- A successful `get_engine_override` implies valid normalized keys and a
normalized result. -/
theorem get_engine_override_some {d : Doc} {rid tr e : String}
    {o : EngineOverrides} (h : get_engine_override d rid tr e = some o) :
    (∃ tk, _normalize_text (some tr) = some tk)
    ∧ (∃ ek, _normalize_engine_id (some e) = some ek)
    ∧ normalize_overrides (some o) = some o
    ∧ _normalize_text o.model = o.model
    ∧ _normalize_text o.reasoning = o.reasoning := by
  unfold get_engine_override at h
  rcases htk : _normalize_text (some tr) with _ | tk <;> rw [htk] at h
  · exact Option.noConfusion h
  rcases hekk : _normalize_engine_id (some e) with _ | ek <;> rw [hekk] at h
  · exact Option.noConfusion h
  dsimp only at h
  refine ⟨⟨tk, rfl⟩, ⟨ek, rfl⟩, ?_⟩
  rcases hjr : jget d rid with _ | rv <;> rw [hjr] at h
  · exact Option.noConfusion h
  rcases rv with _ | _ | _ | _ | room | _ <;> dsimp only at h <;>
    try exact Option.noConfusion h
  rcases hjt : jget room tk with _ | tv <;> rw [hjt] at h
  · exact Option.noConfusion h
  rcases tv with _ | _ | _ | _ | t | _ <;> dsimp only at h <;>
    try exact Option.noConfusion h
  rcases hw : jget t "engine_overrides" with _ | wv <;> rw [hw] at h
  · exact Option.noConfusion h
  rcases wv with _ | _ | _ | _ | ovm | _ <;> dsimp only at h <;>
    try exact Option.noConfusion h
  rcases hv : jget ovm ek with _ | vv <;> rw [hv] at h
  · exact Option.noConfusion h
  rcases vv with _ | _ | _ | _ | value | _ <;> dsimp only at h <;>
    try exact Option.noConfusion h
  obtain ⟨h1, h2, h3⟩ := normalize_overrides_fix h
  exact ⟨h1, h2, h3⟩

/-- **C4**: overrides are merged field-by-field by the command layer: for an
engine whose stored override already has a `reasoning` value, applying the
`/model set` update (which reads the current entry and stores it back with a
new `model`) leaves the observable `reasoning` unchanged; symmetrically,
the `/reasoning set` update leaves the stored `model` unchanged. -/
theorem override_update_merges_fields (d : Doc) (rid tr e v : String)
    (o : EngineOverrides) (r m : String)
    (hget : get_engine_override d rid tr e = some o) :
    (o.reasoning = some r →
      ∃ p, apply_override_update_thread d rid tr e (modelSetUpdate v) = .ok p
        ∧ ∃ o1, get_engine_override p.1 rid tr e = some o1
            ∧ o1.reasoning = some r)
    ∧ (o.model = some m →
      ∃ p, apply_override_update_thread d rid tr e (reasoningSetUpdate v) = .ok p
        ∧ ∃ o1, get_engine_override p.1 rid tr e = some o1
            ∧ o1.model = some m) := by
  obtain ⟨⟨tk, htk⟩, ⟨ek, hek⟩, hfix, hmfix, hrfix⟩ := get_engine_override_some hget
  constructor
  · intro hr
    rw [hr] at hrfix
    have hno : normalize_overrides (some ⟨some v, some r⟩)
        = some ⟨_normalize_text (some v), some r⟩ := by
      unfold normalize_overrides
      dsimp only
      rw [hrfix, if_neg (by simp)]
    unfold apply_override_update_thread
    rw [hget]
    unfold modelSetUpdate
    dsimp only
    rw [hr]
    obtain ⟨p, hp1, hp2⟩ := set_engine_override_roundtrip d rid tr e e
      (some ⟨some v, some r⟩) ⟨_normalize_text (some v), some r⟩ tk ek htk hek
      rfl hno
    exact ⟨p, hp1, ⟨_normalize_text (some v), some r⟩, hp2, rfl⟩
  · intro hm
    rw [hm] at hmfix
    have hno : normalize_overrides (some ⟨some m, some v⟩)
        = some ⟨some m, _normalize_text (some v)⟩ := by
      unfold normalize_overrides
      dsimp only
      rw [hmfix, if_neg (by simp)]
    unfold apply_override_update_thread
    rw [hget]
    unfold reasoningSetUpdate
    dsimp only
    rw [hm]
    obtain ⟨p, hp1, hp2⟩ := set_engine_override_roundtrip d rid tr e e
      (some ⟨some m, some v⟩) ⟨some m, _normalize_text (some v)⟩ tk ek htk hek
      rfl hno
    exact ⟨p, hp1, ⟨some m, _normalize_text (some v)⟩, hp2, rfl⟩

/-- **C7**: set-then-get round trip modulo engine-id normalization: storing a
(non-empty) override entry under one engine-id spelling and reading it back
under any spelling that trims and lowercases to the same key returns the same
normalized OverrideEntry. -/
theorem override_roundtrip_case_normalization (d : Doc) (rid tr e e2 : String)
    (ov : Option EngineOverrides) (no : EngineOverrides) (tk ek : String)
    (htk : _normalize_text (some tr) = some tk)
    (hek1 : _normalize_engine_id (some e) = some ek)
    (hek : _normalize_engine_id (some e2) = _normalize_engine_id (some e))
    (hno : normalize_overrides ov = some no) :
    ∃ p, set_engine_override d rid tr e ov = .ok p ∧
      get_engine_override p.1 rid tr e2 = some no
      ∧ get_engine_override p.1 rid tr e2 = get_engine_override p.1 rid tr e := by
  obtain ⟨p, hp1, hp2⟩ :=
    set_engine_override_roundtrip d rid tr e e2 ov no tk ek htk hek1 hek hno
  obtain ⟨p', hp1', hp2'⟩ :=
    set_engine_override_roundtrip d rid tr e e ov no tk ek htk hek1 rfl hno
  rw [hp1] at hp1'
  injection hp1' with hpp
  subst hpp
  exact ⟨p, hp1, hp2, by rw [hp2, hp2']⟩

theorem jget_eq_none_of_not_mem {m : JObj} {k : String}
    (h : k ∉ m.map Prod.fst) : jget m k = none := by
  induction m with
  | nil => rfl
  | cons a rest ih =>
    obtain ⟨k₀, v₀⟩ := a
    simp only [List.map_cons, List.mem_cons] at h
    push_neg at h
    rw [jget, if_neg (fun hh => h.1 hh.symm)]
    exact ih h.2

theorem jget_jpop_self {m : JObj} {k : String}
    (h : (m.map Prod.fst).Nodup) : jget (jpop m k) k = none := by
  induction m with
  | nil => rfl
  | cons a rest ih =>
    obtain ⟨k₀, v₀⟩ := a
    rw [List.map_cons, List.nodup_cons] at h
    by_cases h0 : k₀ = k
    · rw [jpop, if_pos h0]
      subst h0
      exact jget_eq_none_of_not_mem h.1
    · rw [jpop, if_neg h0, jget, if_neg h0]
      exact ih h.2

theorem jget_jpop_ne {m : JObj} {k k' : String} (h : k' ≠ k) :
    jget (jpop m k) k' = jget m k' := by
  induction m with
  | nil => rfl
  | cons a rest ih =>
    obtain ⟨k₀, v₀⟩ := a
    by_cases h0 : k₀ = k
    · rw [jpop, if_pos h0, jget, if_neg (fun hh => h (hh.symm.trans h0))]
    · rw [jpop, if_neg h0, jget, jget]
      by_cases h1 : k₀ = k'
      · rw [if_pos h1, if_pos h1]
      · rw [if_neg h1, if_neg h1, ih]

/-- **C5 counterexample**: clearing the already-absent default engine of an
existing thread entry does perform a persisted write: it returns with the
save flag `true` (thread_state.py line 227 calls `_save_locked()`
unconditionally once the entry exists), even though the document is
unchanged. -/
theorem idempotent_clear_writes_cex :
    get_default_engine
      [("!r:x", JValue.obj [("t5", JValue.obj
        [("context_project", JValue.str "proj"), ("context_branch", JValue.null),
         ("default_engine", JValue.null), ("trigger_mode", JValue.null),
         ("engine_overrides", JValue.obj []), ("sessions", JValue.obj [])])])]
      "!r:x" "t5" = .ok none
    ∧ clear_default_engine
      [("!r:x", JValue.obj [("t5", JValue.obj
        [("context_project", JValue.str "proj"), ("context_branch", JValue.null),
         ("default_engine", JValue.null), ("trigger_mode", JValue.null),
         ("engine_overrides", JValue.obj []), ("sessions", JValue.obj [])])])]
      "!r:x" "t5"
      = .ok ([("!r:x", JValue.obj [("t5", JValue.obj
        [("context_project", JValue.str "proj"), ("context_branch", JValue.null),
         ("default_engine", JValue.null), ("trigger_mode", JValue.null),
         ("engine_overrides", JValue.obj []), ("sessions", JValue.obj [])])])],
        true) := by
  constructor
  · rfl
  · rfl

/-- **C5 amended**: clearing an already-absent field leaves the in-memory
document unchanged, but a persisted write is skipped only when the room or
thread entry is absent; once the thread entry exists, the clear saves the
(unchanged) document — a redundant persisted write.  Shown for
`set_default_engine`/`clear_default_engine` and for clearing an engine
override that is not present. -/
theorem idempotent_clear_amended (d : Doc) (rid tr tk e ek : String)
    (room t ovm : JObj)
    (htk : _normalize_text (some tr) = some tk) :
    (jget d rid = none → set_default_engine d rid tr none = .ok (d, false))
    ∧ (jget d rid = some (.obj room) → jget room tk = none →
        set_default_engine d rid tr none = .ok (d, false))
    ∧ (jget d rid = some (.obj room) → jget room tk = some (.obj t) →
        jget t "default_engine" = some .null →
        scalarsOkB t = true → threadNonEmptyB t = true →
        set_default_engine d rid tr none = .ok (d, true))
    ∧ (jget d rid = some (.obj room) → jget room tk = some (.obj t) →
        jget t "engine_overrides" = some (.obj ovm) →
        _normalize_engine_id (some e) = some ek → jget ovm ek = none →
        scalarsOkB t = true → threadNonEmptyB t = true →
        set_engine_override d rid tr e none = .ok (d, true)) := by
  refine ⟨?_, ?_, ?_, ?_⟩
  · intro h1
    unfold set_default_engine
    rw [htk, h1]
    rfl
  · intro h1 h2
    unfold set_default_engine
    rw [htk, h1]
    dsimp only
    rw [h2]
    rfl
  · intro h1 h2 h3 hsc hne
    unfold set_default_engine
    rw [htk, h1]
    dsimp only
    rw [h2]
    dsimp only
    rw [jset_eq_self _ _ _ h3, thread_is_empty_eq hsc, hne]
    show Except.ok (pruneWrite d rid tk room t false, true) = .ok (d, true)
    rw [pruneWrite_false, jset_eq_self _ _ _ h2, jset_eq_self _ _ _ h1]
  · intro h1 h2 h3 he h4 hsc hne
    unfold set_engine_override
    rw [htk, he]
    dsimp only
    rw [h1]
    dsimp only
    rw [h2]
    dsimp only
    rw [h3]
    dsimp only
    rw [jpop_eq_self _ _ h4, jset_eq_self _ _ _ h3, thread_is_empty_eq hsc, hne]
    show Except.ok (pruneWrite d rid tk room t false, true) = .ok (d, true)
    rw [pruneWrite_false, jset_eq_self _ _ _ h2, jset_eq_self _ _ _ h1]

theorem normalize_text_blank {s : String} (h : pyStrip s = "") :
    _normalize_text (some s) = none := by
  unfold _normalize_text
  dsimp only
  rw [h]
  rfl

/-- Reading the trigger mode after a clear (`set_trigger_mode ... none`)
yields absent, on any duplicate-key-free document. -/
theorem get_after_clear_trigger {d : Doc} {rid tr : String} {d' : Doc}
    {w : Bool} (hk : keysNodupB d = true)
    (hset : set_trigger_mode d rid tr none = .ok (d', w)) :
    get_trigger_mode d' rid tr = .ok none := by
  rw [keysNodupB, Bool.and_eq_true] at hk
  obtain ⟨hk1, hk2⟩ := hk
  have hndd : (d.map Prod.fst).Nodup := of_decide_eq_true hk1
  unfold set_trigger_mode at hset
  rcases htk : _normalize_text (some tr) with _ | tk <;> rw [htk] at hset
  · obtain ⟨hd, hw⟩ := Prod.mk.injEq .. ▸ Except.ok.inj hset
    subst hd
    unfold get_trigger_mode
    rw [htk]
  dsimp only at hset
  rcases hjr : jget d rid with _ | rv <;> rw [hjr] at hset
  · obtain ⟨hd, hw⟩ := Prod.mk.injEq .. ▸ Except.ok.inj hset
    subst hd
    unfold get_trigger_mode
    rw [htk, hjr]
  rcases rv with _ | _ | _ | _ | room | _
  case null =>
    dsimp only at hset
    obtain ⟨hd, hw⟩ := Prod.mk.injEq .. ▸ Except.ok.inj hset
    subst hd
    unfold get_trigger_mode
    rw [htk, hjr]
  case str =>
    dsimp only at hset
    obtain ⟨hd, hw⟩ := Prod.mk.injEq .. ▸ Except.ok.inj hset
    subst hd
    unfold get_trigger_mode
    rw [htk, hjr]
  case num =>
    dsimp only at hset
    obtain ⟨hd, hw⟩ := Prod.mk.injEq .. ▸ Except.ok.inj hset
    subst hd
    unfold get_trigger_mode
    rw [htk, hjr]
  case bool =>
    dsimp only at hset
    obtain ⟨hd, hw⟩ := Prod.mk.injEq .. ▸ Except.ok.inj hset
    subst hd
    unfold get_trigger_mode
    rw [htk, hjr]
  case arr =>
    dsimp only at hset
    obtain ⟨hd, hw⟩ := Prod.mk.injEq .. ▸ Except.ok.inj hset
    subst hd
    unfold get_trigger_mode
    rw [htk, hjr]
  dsimp only at hset
  rcases hjt : jget room tk with _ | tv <;> rw [hjt] at hset
  · obtain ⟨hd, hw⟩ := Prod.mk.injEq .. ▸ Except.ok.inj hset
    subst hd
    unfold get_trigger_mode
    rw [htk, hjr]
    dsimp only
    rw [hjt]
  rcases tv with _ | _ | _ | _ | t | _
  case null =>
    dsimp only at hset
    obtain ⟨hd, hw⟩ := Prod.mk.injEq .. ▸ Except.ok.inj hset
    subst hd
    unfold get_trigger_mode
    rw [htk, hjr]
    dsimp only
    rw [hjt]
  case str =>
    dsimp only at hset
    obtain ⟨hd, hw⟩ := Prod.mk.injEq .. ▸ Except.ok.inj hset
    subst hd
    unfold get_trigger_mode
    rw [htk, hjr]
    dsimp only
    rw [hjt]
  case num =>
    dsimp only at hset
    obtain ⟨hd, hw⟩ := Prod.mk.injEq .. ▸ Except.ok.inj hset
    subst hd
    unfold get_trigger_mode
    rw [htk, hjr]
    dsimp only
    rw [hjt]
  case bool =>
    dsimp only at hset
    obtain ⟨hd, hw⟩ := Prod.mk.injEq .. ▸ Except.ok.inj hset
    subst hd
    unfold get_trigger_mode
    rw [htk, hjr]
    dsimp only
    rw [hjt]
  case arr =>
    dsimp only at hset
    obtain ⟨hd, hw⟩ := Prod.mk.injEq .. ▸ Except.ok.inj hset
    subst hd
    unfold get_trigger_mode
    rw [htk, hjr]
    dsimp only
    rw [hjt]
  dsimp only at hset
  have hroomnd : (room.map Prod.fst).Nodup := by
    have h2 := (List.all_eq_true.mp hk2) _ (jget_mem hjr)
    exact of_decide_eq_true h2
  rcases hemp : _thread_is_empty (jset t "trigger_mode" .null) with u | b <;>
    rw [hemp] at hset
  · have hset' : (Except.error u : Except Unit (Doc × Bool)) = .ok (d', w) := hset
    exact Except.noConfusion hset' 
  simp only [bind, Except.bind, pure, Except.pure] at hset
  obtain ⟨hd, hw⟩ := Prod.mk.injEq .. ▸ Except.ok.inj hset
  subst hd
  cases b with
  | true =>
    rw [pruneWrite_true]
    by_cases hnil : (jpop room tk).isEmpty
    · rw [if_pos hnil]
      unfold get_trigger_mode
      rw [htk, jget_jpop_self hndd]
    · rw [if_neg hnil]
      unfold get_trigger_mode
      rw [htk, jget_jset_self]
      dsimp only
      rw [jget_jpop_self hroomnd]
  | false =>
    rw [pruneWrite_false]
    unfold get_trigger_mode
    rw [htk, jget_jset_self]
    dsimp only
    rw [jget_jset_self]
    dsimp only
    rw [jget_jset_self]
    rfl

/-- **C6**: the stored trigger-mode domain is exactly {absent, "mentions"}:
setting any mode other than `"mentions"` (e.g. `"all"`) is the same operation
as clearing, reading after such a set always yields absent exactly as if it
had never been set, and every read yields absent or `"mentions"` (or raises
on a wrong-typed hand-edited field), never any other value. -/
theorem trigger_mode_collapses (d : Doc) (rid tr mode : String)
    (hm : _normalize_text (some mode) ≠ some "mentions")
    (hk : keysNodupB d = true) :
    set_trigger_mode d rid tr (some mode) = set_trigger_mode d rid tr none
    ∧ (∀ d' w, set_trigger_mode d rid tr (some mode) = .ok (d', w) →
        get_trigger_mode d' rid tr = .ok none)
    ∧ ∀ d0 : Doc, get_trigger_mode d0 rid tr = .ok none
        ∨ get_trigger_mode d0 rid tr = .ok (some "mentions")
        ∨ get_trigger_mode d0 rid tr = .error () := by
  have hcollapse : set_trigger_mode d rid tr (some mode)
      = set_trigger_mode d rid tr none := by
    unfold set_trigger_mode
    rw [if_neg hm]
    rfl
  refine ⟨hcollapse, ?_, ?_⟩
  · intro d' w hset
    rw [hcollapse] at hset
    exact get_after_clear_trigger hk hset
  · intro d0
    unfold get_trigger_mode
    rcases _normalize_text (some tr) with _ | tk
    · exact Or.inl rfl
    dsimp only
    rcases jget d0 rid with _ | rv
    · exact Or.inl rfl
    rcases rv with _ | _ | _ | _ | room | _
    case null => exact Or.inl rfl
    case str => exact Or.inl rfl
    case num => exact Or.inl rfl
    case bool => exact Or.inl rfl
    case arr => exact Or.inl rfl
    dsimp only
    rcases jget room tk with _ | tv
    · exact Or.inl rfl
    rcases tv with _ | _ | _ | _ | t | _
    case null => exact Or.inl rfl
    case str => exact Or.inl rfl
    case num => exact Or.inl rfl
    case bool => exact Or.inl rfl
    case arr => exact Or.inl rfl
    dsimp only
    rcases hnt : normTextJ (jget t "trigger_mode") with u | x
    · right; right
      simp only [bind, Except.bind]
    by_cases hx : x = some "mentions"
    · right; left
      simp only [bind, Except.bind, pure, Except.pure]
      rw [if_pos hx]
    · left
      simp only [bind, Except.bind, pure, Except.pure]
      rw [if_neg hx]

/-- **C8 counterexample**: a read of a scalar field holding a wrong-typed
JSON value raises (Python `AttributeError` inside `_normalize_text`, line 32
of thread_state.py) instead of treating the field as absent:
`get_default_engine` over an entry whose `default_engine` is the number `1`
fails rather than succeeding with the field absent. -/
theorem read_type_mismatch_raises_cex :
    get_default_engine
      [("!r:x", JValue.obj [("t8", JValue.obj
        [("default_engine", JValue.num 1)])])]
      "!r:x" "t8" = .error () := by
  rfl

/-- **C8 amended**: reads of override entries and resume tokens degrade
field-by-field — a wrong-typed `model` inside an override entry is treated as
absent while the well-typed `reasoning` is still returned, a wrong-typed
resume value reads as absent, and a wrong-typed overrides container reads as
absent — but reads of the scalar string fields (`default_engine`,
`trigger_mode`, and the context fields) raise on a stored value that is
neither a string nor null, instead of treating the field as absent. -/
theorem read_type_mismatch_amended (junk : JValue)
    (hjunk : strOrNone (some junk) = none) :
    get_engine_override
      [("!r:x", JValue.obj [("t8", JValue.obj [("engine_overrides",
        JValue.obj [("codex", JValue.obj [("model", junk),
          ("reasoning", JValue.str "high")])])])])]
      "!r:x" "t8" "codex" = some ⟨none, some "high"⟩
    ∧ get_session_resume
      [("!r:x", JValue.obj [("t8", JValue.obj [("sessions",
        JValue.obj [("codex", junk)])])])]
      "!r:x" "t8" "codex" = none
    ∧ get_engine_override
      [("!r:x", JValue.obj [("t8", JValue.obj [("engine_overrides",
        JValue.str "bad")])])]
      "!r:x" "t8" "codex" = none
    ∧ (junk ≠ .null →
        get_default_engine
          [("!r:x", JValue.obj [("t8", JValue.obj
            [("default_engine", junk)])])]
          "!r:x" "t8" = .error ()
        ∧ get_trigger_mode
          [("!r:x", JValue.obj [("t8", JValue.obj
            [("trigger_mode", junk)])])]
          "!r:x" "t8" = .error ()) := by
  rcases junk with _ | s | n | b | o | a
  case str => exact absurd hjunk (by simp [strOrNone])
  case null => exact ⟨rfl, rfl, rfl, fun h => absurd rfl h⟩
  case num => exact ⟨rfl, rfl, rfl, fun _ => ⟨rfl, rfl⟩⟩
  case bool => exact ⟨rfl, rfl, rfl, fun _ => ⟨rfl, rfl⟩⟩
  case obj => exact ⟨rfl, rfl, rfl, fun _ => ⟨rfl, rfl⟩⟩
  case arr => exact ⟨rfl, rfl, rfl, fun _ => ⟨rfl, rfl⟩⟩

/-- **C9**: every thread-store operation given a blank (empty or
whitespace-only) thread root event id is a no-op: reads return absent and
mutations return the document unchanged with no persisted write. -/
theorem blank_thread_root_noop (d : Doc) (rid tr : String)
    (h : pyStrip tr = "") (e v : String) (ctx : Option RunContext)
    (eng mode : Option String) (ov : Option EngineOverrides) :
    get_session_resume d rid tr e = none
    ∧ get_context d rid tr = .ok none
    ∧ get_default_engine d rid tr = .ok none
    ∧ get_trigger_mode d rid tr = .ok none
    ∧ get_engine_override d rid tr e = none
    ∧ set_session_resume d rid tr ⟨e, v⟩ = (d, false)
    ∧ clear_sessions d rid tr = .ok (d, false)
    ∧ set_context d rid tr ctx = .ok (d, false)
    ∧ set_default_engine d rid tr eng = .ok (d, false)
    ∧ set_trigger_mode d rid tr mode = .ok (d, false)
    ∧ set_engine_override d rid tr e ov = .ok (d, false) := by
  have htk : _normalize_text (some tr) = none := normalize_text_blank h
  refine ⟨?_, ?_, ?_, ?_, ?_, ?_, ?_, ?_, ?_, ?_, ?_⟩
  · unfold get_session_resume
    rw [htk]
  · unfold get_context
    rw [htk]
  · unfold get_default_engine
    rw [htk]
  · unfold get_trigger_mode
    rw [htk]
  · unfold get_engine_override
    rw [htk]
  · unfold set_session_resume
    rw [htk]
  · unfold clear_sessions
    rw [htk]
  · unfold set_context
    rw [htk]
  · unfold set_default_engine
    rw [htk]
  · unfold set_trigger_mode
    rw [htk]
  · unfold set_engine_override
    rw [htk]

/-- **C10**: `set_context` with `None`, or with a context whose project is
blank, is exactly `clear_context` (so any branch supplied alongside an absent
project is discarded, never stored); and `get_context` returns `None`
whenever the stored project field normalizes to absent, even when a branch
string is stored. -/
theorem blank_project_context (d : Doc) (rid tr tk : String)
    (ctx : Option RunContext)
    (hblank : ctx = none ∨ ∃ c, ctx = some c ∧ pyStrip c.project = "")
    (room t : JObj) (bs : String)
    (htk : _normalize_text (some tr) = some tk)
    (hjr : jget d rid = some (.obj room))
    (hjt : jget room tk = some (.obj t))
    (hproj : normTextJ (jget t "context_project") = .ok none)
    (hbr : jget t "context_branch" = some (.str bs)) :
    set_context d rid tr ctx = clear_context d rid tr
    ∧ get_context d rid tr = .ok none := by
  constructor
  · rcases hblank with h | ⟨c, hc, hb⟩
    · rw [h]
      rfl
    · rw [hc]
      unfold clear_context set_context
      rw [htk]
      dsimp only
      rw [normalize_text_blank hb]
  · unfold get_context
    rw [htk, hjr]
    dsimp only
    rw [hjt]
    dsimp only
    rw [hproj, hbr]
    rfl

/-! ### Witnesses: the hypothesis-bearing theorems applied at concrete
inputs -/

theorem engine_id_normalization_witness :
    get_session_resume [] "!r:x" "t1" "CODEX"
      = get_session_resume [] "!r:x" "t1" " codex " :=
  (engine_id_normalization [] "!r:x" "t1" "CODEX" " codex " (by decide)
    "v" none "E").1

theorem override_update_merges_fields_witness :
    ∃ p, apply_override_update_thread
      [("!r:x", JValue.obj [("t1", JValue.obj [("engine_overrides",
        JValue.obj [("codex", JValue.obj [("model", JValue.str "gpt"),
          ("reasoning", JValue.str "high")])])])])]
      "!r:x" "t1" "codex" (modelSetUpdate "o3") = .ok p
      ∧ ∃ o1, get_engine_override p.1 "!r:x" "t1" "codex" = some o1
          ∧ o1.reasoning = some "high" :=
  (override_update_merges_fields
    [("!r:x", JValue.obj [("t1", JValue.obj [("engine_overrides",
      JValue.obj [("codex", JValue.obj [("model", JValue.str "gpt"),
        ("reasoning", JValue.str "high")])])])])]
    "!r:x" "t1" "codex" "o3" ⟨some "gpt", some "high"⟩ "high" "gpt"
    (by decide)).1 rfl

theorem idempotent_clear_amended_witness :
    set_default_engine
      [("!r:x", JValue.obj [("t5", JValue.obj
        [("context_project", JValue.str "proj"), ("context_branch", JValue.null),
         ("default_engine", JValue.null), ("trigger_mode", JValue.null),
         ("engine_overrides", JValue.obj []), ("sessions", JValue.obj [])])])]
      "!r:x" "t5" none
      = .ok ([("!r:x", JValue.obj [("t5", JValue.obj
          [("context_project", JValue.str "proj"),
           ("context_branch", JValue.null),
           ("default_engine", JValue.null), ("trigger_mode", JValue.null),
           ("engine_overrides", JValue.obj []), ("sessions", JValue.obj [])])])],
          true) :=
  (idempotent_clear_amended
    [("!r:x", JValue.obj [("t5", JValue.obj
      [("context_project", JValue.str "proj"), ("context_branch", JValue.null),
       ("default_engine", JValue.null), ("trigger_mode", JValue.null),
       ("engine_overrides", JValue.obj []), ("sessions", JValue.obj [])])])]
    "!r:x" "t5" "t5" "codex" "codex"
    [("t5", JValue.obj
      [("context_project", JValue.str "proj"), ("context_branch", JValue.null),
       ("default_engine", JValue.null), ("trigger_mode", JValue.null),
       ("engine_overrides", JValue.obj []), ("sessions", JValue.obj [])])]
    [("context_project", JValue.str "proj"), ("context_branch", JValue.null),
     ("default_engine", JValue.null), ("trigger_mode", JValue.null),
     ("engine_overrides", JValue.obj []), ("sessions", JValue.obj [])]
    [] rfl).2.2.1 rfl rfl rfl rfl rfl

theorem trigger_mode_collapses_witness :
    set_trigger_mode [] "!r:x" "t1" (some "all")
      = set_trigger_mode [] "!r:x" "t1" none :=
  (trigger_mode_collapses [] "!r:x" "t1" "all" (by decide) rfl).1

theorem override_roundtrip_case_normalization_witness :
    ∃ p, set_engine_override [] "!r:x" "t1" "CODEX"
        (some ⟨some "gpt-4", none⟩) = .ok p ∧
      get_engine_override p.1 "!r:x" "t1" "codex" = some ⟨some "gpt-4", none⟩
      ∧ get_engine_override p.1 "!r:x" "t1" "codex"
        = get_engine_override p.1 "!r:x" "t1" "CODEX" :=
  override_roundtrip_case_normalization [] "!r:x" "t1" "CODEX" "codex"
    (some ⟨some "gpt-4", none⟩) ⟨some "gpt-4", none⟩ "t1" "codex"
    (by decide) (by decide) (by decide) (by decide)

theorem read_type_mismatch_amended_witness :
    get_engine_override
      [("!r:x", JValue.obj [("t8", JValue.obj [("engine_overrides",
        JValue.obj [("codex", JValue.obj [("model", JValue.num 7),
          ("reasoning", JValue.str "high")])])])])]
      "!r:x" "t8" "codex" = some ⟨none, some "high"⟩ :=
  (read_type_mismatch_amended (JValue.num 7) rfl).1

theorem blank_thread_root_noop_witness :
    clear_sessions [("!r:x", JValue.null)] "!r:x" "   "
      = .ok ([("!r:x", JValue.null)], false) :=
  (blank_thread_root_noop [("!r:x", JValue.null)] "!r:x" "   " rfl
    "codex" "v" none none none none).2.2.2.2.2.2.1

theorem blank_project_context_witness :
    set_context
      [("!r:x", JValue.obj [("t9", JValue.obj
        [("context_project", JValue.null),
         ("context_branch", JValue.str "main")])])]
      "!r:x" "t9" (some ⟨"   ", some "feat"⟩)
      = clear_context
        [("!r:x", JValue.obj [("t9", JValue.obj
          [("context_project", JValue.null),
           ("context_branch", JValue.str "main")])])]
        "!r:x" "t9"
    ∧ get_context
      [("!r:x", JValue.obj [("t9", JValue.obj
        [("context_project", JValue.null),
         ("context_branch", JValue.str "main")])])]
      "!r:x" "t9" = .ok none :=
  blank_project_context
    [("!r:x", JValue.obj [("t9", JValue.obj
      [("context_project", JValue.null),
       ("context_branch", JValue.str "main")])])]
    "!r:x" "t9" "t9" (some ⟨"   ", some "feat"⟩)
    (Or.inr ⟨⟨"   ", some "feat"⟩, rfl, rfl⟩)
    [("t9", JValue.obj
      [("context_project", JValue.null),
       ("context_branch", JValue.str "main")])]
    [("context_project", JValue.null), ("context_branch", JValue.str "main")]
    "main" rfl rfl rfl rfl rfl

end TakopiMatrix
